import Mathlib

/-!
Verification of the generalized rock-paper-scissors game (`src/task3.js`).

The core of the program is `PlayRules.determineWinner`, which looks up the
two move labels in the configured move list with JavaScript's
`Array.prototype.indexOf` (returning `-1` for an absent label) and applies
a half-window cyclic rule; `HelpTable.display` re-derives the same rule
inline for the help matrix; the top-level script validates the
command-line move list before constructing the game and generating any
commitment; the commitment tag is an HMAC-SHA-256 supplied by node's
`crypto` library.

We embed these as executable Lean functions over `List String`, `Int` and
`Nat`, translated directly from the source.
-/

/-- JavaScript `Array.prototype.indexOf` on a list of strings: the index of
the first occurrence of `x` in `moves`, or `-1` when `x` does not occur. -/
def jsIndexOf (moves : List String) (x : String) : Int :=
  match moves with
  | [] => -1
  | m :: rest =>
    if m = x then 0
    else
      let r := jsIndexOf rest x
      if r = -1 then -1 else r + 1

/-- The index-level rule of `PlayRules.determineWinner` (src/task3.js lines
61-69): `Draw` when the indices coincide, otherwise `Computer wins` exactly
when the computer's index lies in the half-window after the user's index
(with wrap-around below), else `You win`. -/
def winnerIdx (numMoves : Nat) (userIndex computerIndex : Int) : String :=
  if userIndex = computerIndex then "Draw"
  else
    let half : Int := (numMoves : Int) / 2
    if (computerIndex > userIndex ∧ computerIndex ≤ userIndex + half) ∨
        (computerIndex < userIndex ∧ computerIndex + (numMoves : Int) ≤ userIndex + half)
    then "Computer wins"
    else "You win"

/-- `PlayRules.determineWinner` (src/task3.js lines 55-70): look up both
labels with `indexOf` (yielding `-1` when absent) and apply the
half-window rule on the resulting indices. -/
def determineWinner (moves : List String) (userMove computerMove : String) : String :=
  let userIndex := jsIndexOf moves userMove
  let computerIndex := jsIndexOf moves computerMove
  if userIndex = computerIndex then "Draw"
  else
    let half : Int := (moves.length : Int) / 2
    if (computerIndex > userIndex ∧ computerIndex ≤ userIndex + half) ∨
        (computerIndex < userIndex ∧ computerIndex + (moves.length : Int) ≤ userIndex + half)
    then "Computer wins"
    else "You win"

/-- The modular form of the rule, as the spec states it: `d = (c - u) mod N`;
`Draw` if `d = 0`; `Computer wins` if `1 ≤ d ≤ floor(N/2)`; `You win`
otherwise (`floor(N/2) < d < N`). -/
def modularWinner (numMoves : Nat) (u c : Int) : String :=
  let d : Int := (c - u) % (numMoves : Int)
  if d = 0 then "Draw"
  else if 1 ≤ d ∧ d ≤ (numMoves : Int) / 2 then "Computer wins"
  else "You win"

/-- The residue `(c - u) mod N` used by the modular form. -/
def dmod (numMoves : Nat) (u c : Int) : Int :=
  (c - u) % (numMoves : Int)

/-- The inline cell formula of `HelpTable.display` (src/task3.js lines
105-118): row `i` is the PC's move, column `j` the user's move; `Draw` on
the diagonal, `Win` (for the user) when `j` lies in `i`'s half-window,
`Lose` otherwise. -/
def helpCell (numMoves i j : Nat) : String :=
  if i = j then "Draw"
  else
    let half : Nat := numMoves / 2
    if (j > i ∧ j ≤ i + half) ∨ (j < i ∧ j + numMoves ≤ i + half)
    then "Win"
    else "Lose"

/-- `new Set(args).size`: the number of distinct labels among `args`. -/
def setSize (args : List String) : Nat :=
  args.dedup.length

/-- The top-level argument validation of src/task3.js lines 206-211: the
script reports a configuration error and exits, before any game is
constructed and before any key or HMAC is generated, exactly when this
predicate holds. -/
def configError (args : List String) : Prop :=
  args.length < 3 ∨ args.length % 2 = 0 ∨ setSize args ≠ args.length

instance (args : List String) : Decidable (configError args) := by
  unfold configError; infer_instance

/-- The top-level script: validate the arguments; on failure report the
configuration error (the source prints the message and exits with code 1),
on success hand the move list to the game, which only then generates the
commitment key and tag. -/
def runScript (args : List String) : Except String (List String) :=
  if configError args then
    Except.error "Error: You must provide an odd number of non-repeating strings (>= 3) as command line arguments."
  else
    Except.ok args

/-- Modelled from the spec: `verify(secretKey, move, tag)` recomputes the
keyed digest from the revealed key and revealed move and compares it for
equality with the originally shown tag (spec section 4.1). The keyed
digest itself (HMAC-SHA-256, `CryptoGenerate.generateHMAC`) is provided by
node's external `crypto` library and is not part of the repository source,
so it is taken here as a parameter `generateHMAC`; as a Lean function it
is deterministic, which is exactly the property the round-trip relies on. -/
def verify (generateHMAC : String → String → String)
    (secretKey move tag : String) : Bool :=
  generateHMAC secretKey move == tag

/-! ### Basic facts about `jsIndexOf` -/

theorem jsIndexOf_not_mem {moves : List String} {x : String} (h : x ∉ moves) :
    jsIndexOf moves x = -1 := by
  induction moves with
  | nil => rfl
  | cons m rest ih =>
    simp only [List.mem_cons, not_or] at h
    have hne : ¬ m = x := fun hmx => h.1 hmx.symm
    simp [jsIndexOf, hne, ih h.2]

theorem jsIndexOf_nonneg_of_mem {moves : List String} {x : String} (h : x ∈ moves) :
    0 ≤ jsIndexOf moves x ∧ jsIndexOf moves x < moves.length := by
  induction moves with
  | nil => simp at h
  | cons m rest ih =>
    by_cases hmx : m = x
    · simp [jsIndexOf, hmx]
    · have hx : x ∈ rest := by
        rcases List.mem_cons.mp h with h1 | h1
        · exact absurd h1.symm hmx
        · exact h1
      obtain ⟨h0, hlt⟩ := ih hx
      simp only [jsIndexOf, if_neg hmx]
      have : jsIndexOf rest x ≠ -1 := by omega
      simp only [if_neg this, List.length_cons]
      push_cast
      omega

theorem jsIndexOf_get {moves : List String} (hnd : moves.Nodup) (i : Fin moves.length) :
    jsIndexOf moves (moves.get i) = ((i : Nat) : Int) := by
  induction moves with
  | nil => exact absurd i.isLt (by simp)
  | cons m rest ih =>
    obtain ⟨iv, hiv⟩ := i
    cases iv with
    | zero => simp [jsIndexOf]
    | succ j =>
      have hj : j < rest.length := by simpa using hiv
      have hget : (m :: rest).get ⟨j + 1, hiv⟩ = rest.get ⟨j, hj⟩ := rfl
      have hmem : rest.get ⟨j, hj⟩ ∈ rest := List.get_mem rest j hj
      have hne : m ≠ rest.get ⟨j, hj⟩ := by
        intro hEq
        exact (List.nodup_cons.mp hnd).1 (hEq ▸ hmem)
      have ihj := ih (List.nodup_cons.mp hnd).2 ⟨j, hj⟩
      simp only [jsIndexOf, hget, if_neg hne, ihj]
      have : ((j : Int)) ≠ -1 := by omega
      simp only [if_neg this]
      push_cast
      ring

theorem determineWinner_eq_winnerIdx (moves : List String) (a b : String) :
    determineWinner moves a b
      = winnerIdx moves.length (jsIndexOf moves a) (jsIndexOf moves b) := rfl

theorem determineWinner_get (moves : List String) (hnd : moves.Nodup)
    (u c : Fin moves.length) :
    determineWinner moves (moves.get u) (moves.get c)
      = winnerIdx moves.length ((u : Nat) : Int) ((c : Nat) : Int) := by
  rw [determineWinner_eq_winnerIdx, jsIndexOf_get hnd, jsIndexOf_get hnd]

/-! ### The modular form of the rule -/

theorem winnerIdx_eq_modularWinner (N : Nat) (u c : Int)
    (h3 : 3 ≤ N) (hu0 : 0 ≤ u) (huN : u < N) (hc0 : 0 ≤ c) (hcN : c < N) :
    winnerIdx N u c = modularWinner N u c := by
  simp only [winnerIdx, modularWinner]
  rcases lt_trichotomy u c with h | h | h
  · have hd : (c - u) % (N : Int) = c - u :=
      Int.emod_eq_of_lt (by omega) (by omega)
    rw [hd]
    split_ifs <;> first | rfl | omega
  · subst h
    simp
  · have hd : (c - u) % (N : Int) = c - u + N := by
      have h1 : (c - u + (N : Int)) % (N : Int) = (c - u) % (N : Int) := by
        have h2 := Int.add_mul_emod_self_left (a := c - u) (b := (N : Int)) (c := 1)
        simpa using h2
      rw [← h1, Int.emod_eq_of_lt (by omega) (by omega)]
    rw [hd]
    split_ifs <;> first | rfl | omega

theorem dmod_eq (N : Nat) (u c : Int)
    (hN : 0 < N) (hu0 : 0 ≤ u) (huN : u < N) (hc0 : 0 ≤ c) (hcN : c < N) :
    dmod N u c = if u ≤ c then c - u else c - u + N := by
  unfold dmod
  split_ifs with h
  · exact Int.emod_eq_of_lt (by omega) (by omega)
  · have h1 : (c - u + (N : Int)) % (N : Int) = (c - u) % (N : Int) := by
      have h2 := Int.add_mul_emod_self_left (a := c - u) (b := (N : Int)) (c := 1)
      simpa using h2
    rw [← h1, Int.emod_eq_of_lt (by omega) (by omega)]

theorem winnerIdx_eq_cw_iff (N : Nat) (u c : Int)
    (h3 : 3 ≤ N) (hu0 : 0 ≤ u) (huN : u < N) (hc0 : 0 ≤ c) (hcN : c < N) :
    winnerIdx N u c = "Computer wins" ↔
      1 ≤ dmod N u c ∧ dmod N u c ≤ (N : Int) / 2 := by
  rw [winnerIdx_eq_modularWinner N u c h3 hu0 huN hc0 hcN]
  simp only [modularWinner, dmod]
  split_ifs with h1 h2
  · exact iff_of_false (by decide) (by omega)
  · exact iff_of_true rfl h2
  · exact iff_of_false (by decide) h2

theorem winnerIdx_eq_yw_iff (N : Nat) (u c : Int)
    (h3 : 3 ≤ N) (hu0 : 0 ≤ u) (huN : u < N) (hc0 : 0 ≤ c) (hcN : c < N) :
    winnerIdx N u c = "You win" ↔ (N : Int) / 2 < dmod N u c := by
  have hd0 : 0 ≤ (c - u) % (N : Int) := Int.emod_nonneg _ (by omega)
  rw [winnerIdx_eq_modularWinner N u c h3 hu0 huN hc0 hcN]
  simp only [modularWinner, dmod]
  split_ifs with h1 h2
  · exact iff_of_false (by decide) (by omega)
  · exact iff_of_false (by decide) (by omega)
  · exact iff_of_true rfl (by omega)

theorem winnerIdx_eq_draw_iff (N : Nat) (u c : Int)
    (h3 : 3 ≤ N) (hu0 : 0 ≤ u) (huN : u < N) (hc0 : 0 ≤ c) (hcN : c < N) :
    winnerIdx N u c = "Draw" ↔ dmod N u c = 0 := by
  rw [winnerIdx_eq_modularWinner N u c h3 hu0 huN hc0 hcN]
  simp only [modularWinner, dmod]
  split_ifs with h1 h2
  · exact iff_of_true rfl h1
  · exact iff_of_false (by decide) h1
  · exact iff_of_false (by decide) h1

theorem winnerIdx_antisymm (N : Nat) (u c : Int)
    (hodd : N % 2 = 1) (h3 : 3 ≤ N)
    (hu0 : 0 ≤ u) (huN : u < N) (hc0 : 0 ≤ c) (hcN : c < N) :
    winnerIdx N u c = "You win" ↔ winnerIdx N c u = "Computer wins" := by
  rw [winnerIdx_eq_yw_iff N u c h3 hu0 huN hc0 hcN,
    winnerIdx_eq_cw_iff N c u h3 hc0 hcN hu0 huN,
    dmod_eq N u c (by omega) hu0 huN hc0 hcN,
    dmod_eq N c u (by omega) hc0 hcN hu0 huN]
  split_ifs <;> omega

/-! ### Counting wins and losses -/

theorem length_filter_eq_sum {α : Type} (l : List α) (p : α → Bool) :
    (l.filter p).length = ∑ i : Fin l.length, if p (l.get i) then 1 else 0 := by
  induction l with
  | nil => simp
  | cons a l ih =>
    show (List.filter p (a :: l)).length
      = ∑ i : Fin (l.length + 1), if p ((a :: l).get i) then 1 else 0
    rw [Fin.sum_univ_succ]
    by_cases hpa : p a
    · simp [List.filter_cons, hpa, ih]
      omega
    · simp [List.filter_cons, hpa, ih]

theorem card_filter_mod_shift (N k : Nat) (hN : 0 < N) (hk : k ≤ N)
    (P : Nat → Prop) [DecidablePred P] :
    ((Finset.range N).filter (fun c => P ((c + k) % N))).card
      = ((Finset.range N).filter P).card := by
  apply Finset.card_nbij' (fun c => (c + k) % N) (fun d => (d + (N - k)) % N)
  · intro a ha
    simp only [Finset.mem_filter, Finset.mem_range] at ha ⊢
    exact ⟨Nat.mod_lt _ hN, ha.2⟩
  · intro d hd
    simp only [Finset.mem_filter, Finset.mem_range] at hd ⊢
    refine ⟨Nat.mod_lt _ hN, ?_⟩
    have hrt : ((d + (N - k)) % N + k) % N = d := by
      rw [Nat.mod_add_mod]
      have h1 : d + (N - k) + k = d + N := by omega
      rw [h1, Nat.add_mod_right, Nat.mod_eq_of_lt hd.1]
    rw [hrt]
    exact hd.2
  · intro a ha
    simp only [Finset.mem_filter, Finset.mem_range] at ha
    rw [Nat.mod_add_mod]
    have h1 : a + k + (N - k) = a + N := by omega
    rw [h1, Nat.add_mod_right, Nat.mod_eq_of_lt ha.1]
  · intro d hd
    simp only [Finset.mem_filter, Finset.mem_range] at hd
    rw [Nat.mod_add_mod]
    have h1 : d + (N - k) + k = d + N := by omega
    rw [h1, Nat.add_mod_right, Nat.mod_eq_of_lt hd.1]

theorem dmod_natCast (N u c : Nat) (hu : u < N) (hc : c < N) :
    dmod N (u : Int) (c : Int) = ((c + (N - u)) % N : Nat) := by
  rw [dmod_eq N (u : Int) (c : Int) (by omega) (by omega) (by omega) (by omega) (by omega)]
  by_cases h : u ≤ c
  · rw [if_pos (by exact_mod_cast h)]
    have h1 : c + (N - u) = (c - u) + N := by omega
    rw [h1, Nat.add_mod_right, Nat.mod_eq_of_lt (by omega)]
    omega
  · rw [if_neg (by exact_mod_cast h)]
    rw [Nat.mod_eq_of_lt (by omega)]
    omega

theorem card_window_cw (N : Nat) (h3 : 3 ≤ N) :
    ((Finset.range N).filter (fun d => 1 ≤ d ∧ d ≤ N / 2)).card = N / 2 := by
  have hset : (Finset.range N).filter (fun d => 1 ≤ d ∧ d ≤ N / 2)
      = Finset.Icc 1 (N / 2) := by
    ext d
    simp only [Finset.mem_filter, Finset.mem_range, Finset.mem_Icc]
    omega
  rw [hset, Nat.card_Icc]
  omega

theorem card_window_yw (N : Nat) (hodd : N % 2 = 1) (h3 : 3 ≤ N) :
    ((Finset.range N).filter (fun d => N / 2 < d)).card = N / 2 := by
  have hset : (Finset.range N).filter (fun d => N / 2 < d)
      = Finset.Icc (N / 2 + 1) (N - 1) := by
    ext d
    simp only [Finset.mem_filter, Finset.mem_range, Finset.mem_Icc]
    omega
  rw [hset, Nat.card_Icc]
  omega

theorem count_cw_range (N u : Nat) (hodd : N % 2 = 1) (h3 : 3 ≤ N) (hu : u < N) :
    ((Finset.range N).filter
        (fun c : Nat => winnerIdx N (u : Int) (c : Int) = "Computer wins")).card
      = N / 2 := by
  have hfc : (Finset.range N).filter
        (fun c : Nat => winnerIdx N (u : Int) (c : Int) = "Computer wins")
      = (Finset.range N).filter
        (fun c : Nat => 1 ≤ (c + (N - u)) % N ∧ (c + (N - u)) % N ≤ N / 2) := by
    apply Finset.filter_congr
    intro c hc
    rw [Finset.mem_range] at hc
    rw [winnerIdx_eq_cw_iff N (u : Int) (c : Int) h3 (by omega) (by omega) (by omega) (by omega),
      dmod_natCast N u c hu hc]
    omega
  rw [hfc]
  have hshift := card_filter_mod_shift N (N - u) (by omega) (by omega)
    (fun d => 1 ≤ d ∧ d ≤ N / 2)
  exact hshift.trans (card_window_cw N h3)

theorem count_yw_range (N u : Nat) (hodd : N % 2 = 1) (h3 : 3 ≤ N) (hu : u < N) :
    ((Finset.range N).filter
        (fun c : Nat => winnerIdx N (u : Int) (c : Int) = "You win")).card
      = N / 2 := by
  have hfc : (Finset.range N).filter
        (fun c : Nat => winnerIdx N (u : Int) (c : Int) = "You win")
      = (Finset.range N).filter (fun c : Nat => N / 2 < (c + (N - u)) % N) := by
    apply Finset.filter_congr
    intro c hc
    rw [Finset.mem_range] at hc
    rw [winnerIdx_eq_yw_iff N (u : Int) (c : Int) h3 (by omega) (by omega) (by omega) (by omega),
      dmod_natCast N u c hu hc]
    omega
  rw [hfc]
  have hshift := card_filter_mod_shift N (N - u) (by omega) (by omega)
    (fun d => N / 2 < d)
  exact hshift.trans (card_window_yw N hodd h3)

theorem filter_count_eq (moves : List String) (hnd : moves.Nodup)
    (u : Fin moves.length) (R : String) :
    (moves.filter (fun X => determineWinner moves (moves.get u) X == R)).length
      = ((Finset.range moves.length).filter
          (fun c : Nat => winnerIdx moves.length ((u : Nat) : Int) (c : Int) = R)).card := by
  rw [length_filter_eq_sum]
  have hstep : ∀ i : Fin moves.length,
      (if determineWinner moves (moves.get u) (moves.get i) == R then (1 : Nat) else 0)
        = (if winnerIdx moves.length ((u : Nat) : Int) ((i : Nat) : Int) = R then 1 else 0) := by
    intro i
    rw [determineWinner_get moves hnd u i]
    simp [beq_iff_eq]
  calc ∑ i : Fin moves.length,
        (if determineWinner moves (moves.get u) (moves.get i) == R then (1 : Nat) else 0)
      = ∑ i : Fin moves.length,
          (if winnerIdx moves.length ((u : Nat) : Int) ((i : Nat) : Int) = R then 1 else 0) :=
        Finset.sum_congr rfl (fun i _ => hstep i)
    _ = ∑ i ∈ Finset.range moves.length,
          (if winnerIdx moves.length ((u : Nat) : Int) ((i : Nat) : Int) = R then 1 else 0) :=
        Fin.sum_univ_eq_sum_range
          (fun n => if winnerIdx moves.length ((u : Nat) : Int) ((n : Nat) : Int) = R then 1 else 0)
          moves.length
    _ = _ := (Finset.card_filter _ _).symm

/-! ### Argument validation -/

theorem setSize_eq_iff (args : List String) :
    setSize args = args.length ↔ args.Nodup := by
  unfold setSize
  constructor
  · intro h
    have hsub : args.dedup.Sublist args := List.dedup_sublist args
    have heq := hsub.eq_of_length h
    rw [← heq]
    exact args.nodup_dedup
  · intro h
    rw [List.dedup_eq_self.mpr h]

theorem configError_iff (args : List String) :
    configError args ↔
      (args.length % 2 = 0 ∨ args.length < 3 ∨ ¬ args.Nodup) := by
  unfold configError
  rw [← setSize_eq_iff args]
  tauto

/-! ### The claims -/

/-- C1: for every move list of distinct labels with odd length N ≥ 3 and
every pair of indices u, c in [0, N), the disjunctive rule implemented by
`determineWinner` yields exactly the same outcome as the modular form
(`d = (c - u) mod N`; Draw if `d = 0`; Computer wins if `1 ≤ d ≤ N/2`;
You win if `N/2 < d < N`). -/
theorem determineWinner_matches_modular_form (moves : List String)
    (hnd : moves.Nodup) (hodd : moves.length % 2 = 1) (h3 : 3 ≤ moves.length)
    (u c : Fin moves.length) :
    determineWinner moves (moves.get u) (moves.get c)
      = modularWinner moves.length ((u : Nat) : Int) ((c : Nat) : Int) := by
  have hu := u.isLt
  have hc := c.isLt
  rw [determineWinner_get moves hnd u c]
  exact winnerIdx_eq_modularWinner moves.length _ _ h3
    (by omega) (by omega) (by omega) (by omega)

theorem determineWinner_matches_modular_form_witness :
    determineWinner ["Rock", "Paper", "Scissors"] "Rock" "Paper"
      = modularWinner 3 0 1 :=
  determineWinner_matches_modular_form ["Rock", "Paper", "Scissors"]
    (by decide) (by decide) (by decide) ⟨0, by decide⟩ ⟨1, by decide⟩

/-- C2: for every move list of distinct labels with odd length N ≥ 3 and
member moves A and B, `determineWinner A A = "Draw"`, and
`determineWinner A B = "You win"` exactly when
`determineWinner B A = "Computer wins"` — the rule is antisymmetric. -/
theorem determineWinner_draw_and_antisymmetric (moves : List String)
    (hnd : moves.Nodup) (hodd : moves.length % 2 = 1) (h3 : 3 ≤ moves.length)
    (A B : String) (hA : A ∈ moves) (hB : B ∈ moves) :
    determineWinner moves A A = "Draw" ∧
    (determineWinner moves A B = "You win"
      ↔ determineWinner moves B A = "Computer wins") := by
  obtain ⟨u, hu⟩ := List.mem_iff_get.mp hA
  obtain ⟨c, hc⟩ := List.mem_iff_get.mp hB
  subst hu
  subst hc
  have hult := u.isLt
  have hclt := c.isLt
  constructor
  · rw [determineWinner_eq_winnerIdx]
    simp [winnerIdx]
  · rw [determineWinner_get moves hnd u c, determineWinner_get moves hnd c u]
    exact winnerIdx_antisymm moves.length _ _ hodd h3
      (by omega) (by omega) (by omega) (by omega)

theorem determineWinner_draw_and_antisymmetric_witness :
    determineWinner ["Rock", "Paper", "Scissors"] "Rock" "Rock" = "Draw" ∧
    (determineWinner ["Rock", "Paper", "Scissors"] "Rock" "Scissors" = "You win"
      ↔ determineWinner ["Rock", "Paper", "Scissors"] "Scissors" "Rock" = "Computer wins") :=
  determineWinner_draw_and_antisymmetric ["Rock", "Paper", "Scissors"]
    (by decide) (by decide) (by decide) "Rock" "Scissors" (by decide) (by decide)

/-- C3: for every move list of distinct labels with odd length N ≥ 3 and
member move A, exactly `N / 2` member moves X satisfy
`determineWinner A X = "You win"` (A beats X) and exactly `N / 2` satisfy
`determineWinner A X = "Computer wins"` (A loses to X). -/
theorem determineWinner_beats_and_loses_half (moves : List String)
    (hnd : moves.Nodup) (hodd : moves.length % 2 = 1) (h3 : 3 ≤ moves.length)
    (A : String) (hA : A ∈ moves) :
    (moves.filter (fun X => determineWinner moves A X == "You win")).length
        = moves.length / 2 ∧
    (moves.filter (fun X => determineWinner moves A X == "Computer wins")).length
        = moves.length / 2 := by
  obtain ⟨u, hu⟩ := List.mem_iff_get.mp hA
  subst hu
  constructor
  · rw [filter_count_eq moves hnd u "You win"]
    exact count_yw_range moves.length (u : Nat) hodd h3 u.isLt
  · rw [filter_count_eq moves hnd u "Computer wins"]
    exact count_cw_range moves.length (u : Nat) hodd h3 u.isLt

theorem determineWinner_beats_and_loses_half_witness :
    (["Rock", "Paper", "Scissors"].filter
        (fun X => determineWinner ["Rock", "Paper", "Scissors"] "Rock" X == "You win")).length
        = 3 / 2 ∧
    (["Rock", "Paper", "Scissors"].filter
        (fun X => determineWinner ["Rock", "Paper", "Scissors"] "Rock" X == "Computer wins")).length
        = 3 / 2 :=
  determineWinner_beats_and_loses_half ["Rock", "Paper", "Scissors"]
    (by decide) (by decide) (by decide) "Rock" (by decide)

/-- C4: for every move list of distinct labels with odd length N ≥ 3 and
row index i (PC move), column index j (user move), the inline cell of
`HelpTable.display` equals the outcome of `determineWinner` on
(user = moves[j], computer = moves[i]) rendered from the user's
perspective: `Draw` iff Draw, `Win` iff `You win`, `Lose` iff
`Computer wins`. -/
theorem helpTable_cell_matches_determineWinner (moves : List String)
    (hnd : moves.Nodup) (hodd : moves.length % 2 = 1) (h3 : 3 ≤ moves.length)
    (i j : Fin moves.length) :
    (helpCell moves.length (i : Nat) (j : Nat) = "Draw"
      ↔ determineWinner moves (moves.get j) (moves.get i) = "Draw") ∧
    (helpCell moves.length (i : Nat) (j : Nat) = "Win"
      ↔ determineWinner moves (moves.get j) (moves.get i) = "You win") ∧
    (helpCell moves.length (i : Nat) (j : Nat) = "Lose"
      ↔ determineWinner moves (moves.get j) (moves.get i) = "Computer wins") := by
  have hi : (i : Nat) < moves.length := i.isLt
  have hj : (j : Nat) < moves.length := j.isLt
  rw [determineWinner_get moves hnd j i]
  simp only [helpCell, winnerIdx]
  refine ⟨?_, ?_, ?_⟩ <;> split_ifs <;> first | decide | omega

theorem helpTable_cell_matches_determineWinner_witness :
    (helpCell 3 0 1 = "Draw"
      ↔ determineWinner ["Rock", "Paper", "Scissors"] "Paper" "Rock" = "Draw") ∧
    (helpCell 3 0 1 = "Win"
      ↔ determineWinner ["Rock", "Paper", "Scissors"] "Paper" "Rock" = "You win") ∧
    (helpCell 3 0 1 = "Lose"
      ↔ determineWinner ["Rock", "Paper", "Scissors"] "Paper" "Rock" = "Computer wins") :=
  helpTable_cell_matches_determineWinner ["Rock", "Paper", "Scissors"]
    (by decide) (by decide) (by decide) ⟨0, by decide⟩ ⟨1, by decide⟩

/-- C5 (counterexample): invoked with the label "X", which is not a member
of the configured move list, `determineWinner` does not report an error:
it returns the normal outcome "Computer wins" (the absent label gets index
-1, and index 0 lies in its half-window). -/
theorem determineWinner_unknown_label_normal_outcome_cex :
    "X" ∉ ["Rock", "Paper", "Scissors"] ∧
    determineWinner ["Rock", "Paper", "Scissors"] "X" "Rock" = "Computer wins" := by
  decide

/-- C5 (amended): when `determineWinner` is invoked with a label absent
from the configured move list, no error is signalled: the function totally
returns one of the three normal outcomes, computed from index -1 for each
missing label. -/
theorem determineWinner_total_on_unknown_labels (moves : List String)
    (a b : String) (h : a ∉ moves ∨ b ∉ moves) :
    determineWinner moves a b = "Draw" ∨
    determineWinner moves a b = "Computer wins" ∨
    determineWinner moves a b = "You win" := by
  rw [determineWinner_eq_winnerIdx]
  simp only [winnerIdx]
  split_ifs <;> simp

theorem determineWinner_total_on_unknown_labels_witness :
    determineWinner ["Rock", "Paper", "Scissors"] "X" "Y" = "Draw" ∨
    determineWinner ["Rock", "Paper", "Scissors"] "X" "Y" = "Computer wins" ∨
    determineWinner ["Rock", "Paper", "Scissors"] "X" "Y" = "You win" :=
  determineWinner_total_on_unknown_labels ["Rock", "Paper", "Scissors"] "X" "Y"
    (Or.inl (by decide))

/-- C6: the top-level script signals a configuration error — before any
game is constructed and any commitment generated — exactly when the move
list has even length, length < 3, or duplicate labels; for a list of
distinct labels with odd length ≥ 3 it proceeds with the move list. -/
theorem runScript_configuration_error_iff (args : List String) :
    ((∃ e, runScript args = Except.error e)
      ↔ (args.length % 2 = 0 ∨ args.length < 3 ∨ ¬ args.Nodup)) ∧
    (runScript args = Except.ok args
      ↔ (args.length % 2 = 1 ∧ 3 ≤ args.length ∧ args.Nodup)) := by
  have hcfg := configError_iff args
  unfold runScript
  split_ifs with h
  · refine ⟨iff_of_true ⟨_, rfl⟩ (hcfg.mp h), iff_of_false (by simp) ?_⟩
    rintro ⟨h1, h2, h3⟩
    rcases hcfg.mp h with hh | hh | hh
    · omega
    · omega
    · exact hh h3
  · refine ⟨iff_of_false ?_ ?_, iff_of_true rfl ?_⟩
    · rintro ⟨e, he⟩
      simp at he
    · intro hh
      exact h (hcfg.mpr hh)
    · have hn : ¬ (args.length % 2 = 0 ∨ args.length < 3 ∨ ¬ args.Nodup) :=
        fun hh => h (hcfg.mpr hh)
      push_neg at hn
      exact ⟨by omega, by omega, hn.2.2⟩

/-- C7: commit/verify round-trip — for every keyed digest function, secret
key and move, the digest is deterministic, so `verify` recomputing it from
the revealed key and move reproduces the originally shown tag. -/
theorem verify_roundtrip (generateHMAC : String → String → String)
    (secretKey move : String) :
    verify generateHMAC secretKey move (generateHMAC secretKey move) = true := by
  simp [verify]

/-- C8: with moves [Rock, Paper, Scissors], Rock beats Scissors, loses to
Paper, and draws against Rock. -/
theorem determineWinner_classic_rps :
    determineWinner ["Rock", "Paper", "Scissors"] "Rock" "Scissors" = "You win" ∧
    determineWinner ["Rock", "Paper", "Scissors"] "Rock" "Paper" = "Computer wins" ∧
    determineWinner ["Rock", "Paper", "Scissors"] "Rock" "Rock" = "Draw" := by
  decide

/-- C9: with moves [Rock, Spock, Paper, Lizard, Scissors] (N = 5,
half = 2), Rock beats Lizard and loses to Spock. -/
theorem determineWinner_rpsls :
    determineWinner ["Rock", "Spock", "Paper", "Lizard", "Scissors"]
        "Rock" "Lizard" = "You win" ∧
    determineWinner ["Rock", "Spock", "Paper", "Lizard", "Scissors"]
        "Rock" "Spock" = "Computer wins" := by
  decide

/-- C10: if `determineWinner` is called with two labels neither of which
occurs in the move list, both `indexOf` lookups yield -1, the equality
branch fires, and the function silently returns "Draw". -/
theorem determineWinner_unknown_vs_unknown_draw (moves : List String)
    (a b : String) (ha : a ∉ moves) (hb : b ∉ moves) :
    determineWinner moves a b = "Draw" := by
  rw [determineWinner_eq_winnerIdx, jsIndexOf_not_mem ha, jsIndexOf_not_mem hb]
  simp [winnerIdx]

theorem determineWinner_unknown_vs_unknown_draw_witness :
    determineWinner ["Rock", "Paper", "Scissors"] "A" "B" = "Draw" :=
  determineWinner_unknown_vs_unknown_draw ["Rock", "Paper", "Scissors"] "A" "B"
    (by decide) (by decide)
